import Mathlib

/-!
Verification of the MCH2022 WebUSB protocol engine.

This file shallowly embeds the protocol engine of the badgeteam
mch2022-webusb-lib repository: the frame codec and stream reassembler of
`src/badge-usb.ts` (`_sendPacket`, `_handleData`, `_handlePacket`), the
buffer helpers of `src/lib/buffers.ts` (`seekUint8`, `seekUint32`), the
transaction queue of `src/lib/queue.ts`, the transaction/timeout logic of
`BadgeUSB.transaction`, the sync retry loops of `BadgeUSB.connect` and
`BadgeUSB.syncIfNeeded`, and the chunked bulk-transfer loops of
`src/api/filesystem.ts` and `src/api/appfs.ts`.

Byte buffers are `List Nat` (a byte is a value below 256; the DataView
reads are defined with padding by zero exactly where the JS `DataView`
would throw, which never happens on the paths modelled here because every
read is guarded by a length check in the source). Machine arithmetic is
`Nat` with explicit `% 2 ^ 32` where the source truncates.
-/

/-- `PROTOCOL_MAGIC` from `badge-usb.ts`. -/
def MAGIC : Nat := 0xFEEDF00D

/-- `FIRMWARE_ERR_MAGIC_START` from `badge-usb.ts` (read big-endian). -/
def ERRSTART : Nat := 0x1B5B303B

/-- `FIRMWARE_ERR_MAGIC_END` from `badge-usb.ts` (sought big-endian). -/
def ERREND : Nat := 0x1B5B306D

/-- `DataView.getUint32(i, true)`: little-endian 32-bit read at offset `i`. -/
def getU32LE (l : List Nat) (i : Nat) : Nat :=
  l.getD i 0 + 256 * l.getD (i + 1) 0 + 65536 * l.getD (i + 2) 0 +
    16777216 * l.getD (i + 3) 0

/-- `DataView.getUint32(i, false)`: big-endian 32-bit read at offset `i`. -/
def getU32BE (l : List Nat) (i : Nat) : Nat :=
  16777216 * l.getD i 0 + 65536 * l.getD (i + 1) 0 + 256 * l.getD (i + 2) 0 +
    l.getD (i + 3) 0

/-- Endianness-dispatching 32-bit read, as `DataView.getUint32(i, littleEndian)`. -/
def getU32 (little : Bool) (l : List Nat) (i : Nat) : Nat :=
  if little then getU32LE l i else getU32BE l i

/-- The scan loop of `seekUint32` from `src/lib/buffers.ts`: starting at
index `i` with `fuel` remaining positions (the JS loop runs while
`i + 3 < data.byteLength`, i.e. over exactly `byteLength - 3` positions),
return the first index whose 32-bit read equals `marker`. -/
def seekU32Go (l : List Nat) (marker : Nat) (little : Bool) : Nat → Nat → Option Nat
  | 0, _ => none
  | fuel + 1, i =>
    if getU32 little l i = marker then some i
    else seekU32Go l marker little fuel (i + 1)

/-- `seekUint32(data, marker, littleEndian)` from `src/lib/buffers.ts`;
`none` models the `-1` not-found return. -/
def seekU32 (l : List Nat) (marker : Nat) (little : Bool) : Option Nat :=
  seekU32Go l marker little (l.length - 3) 0

/-- One pass of the `while` loop of `BadgeUSB._handleData` over the receive
buffer, with `fuel` bounding the number of iterations (each iteration that
continues removes at least one byte, so `buf.length` fuel is always
enough). Returns the list of complete packets handed to `_handlePacket`,
in order, and the remaining buffer. -/
def processBufGo : Nat → List Nat → List (List Nat) × List Nat
  | 0, buf => ([], buf)
  | fuel + 1, buf =>
    if 20 ≤ buf.length then
      if getU32LE buf 0 = MAGIC then
        if 20 + getU32LE buf 12 ≤ buf.length then
          let r := processBufGo fuel (buf.drop (20 + getU32LE buf 12))
          (buf.take (20 + getU32LE buf 12) :: r.1, r.2)
        else ([], buf)
      else if getU32BE buf 0 = ERRSTART then
        match seekU32 buf ERREND false with
        | none => ([], buf)
        | some e => processBufGo fuel (buf.drop (e + 4))
      else
        match seekU32 buf MAGIC true with
        | none => ([], buf)
        | some m => processBufGo fuel (buf.drop m)
    else ([], buf)

/-- The Stream Reassembler: `BadgeUSB._handleData` run on a buffer, i.e.
the loop `processBufGo` with enough fuel for any input. -/
def processBuffer (buf : List Nat) : List (List Nat) × List Nat :=
  processBufGo buf.length buf

/-- If `seekU32Go` finds `marker` at position `j`, then `j` lies in the
scanned window and the read there returns `marker`. -/
theorem seekU32Go_some {l : List Nat} {marker : Nat} {little : Bool} :
    ∀ {fuel i j : Nat}, seekU32Go l marker little fuel i = some j →
      i ≤ j ∧ j < i + fuel ∧ getU32 little l j = marker := by
  intro fuel
  induction fuel with
  | zero => intro i j h; simp [seekU32Go] at h
  | succ n ih =>
    intro i j h
    rw [seekU32Go] at h
    by_cases hc : getU32 little l i = marker
    · rw [if_pos hc] at h
      cases h
      exact ⟨Nat.le_refl _, by omega, hc⟩
    · rw [if_neg hc] at h
      obtain ⟨h1, h2, h3⟩ := ih h
      exact ⟨by omega, by omega, h3⟩

/-- If every position in the scanned window fails the comparison,
`seekU32Go` returns `none`. -/
theorem seekU32Go_none {l : List Nat} {marker : Nat} {little : Bool} :
    ∀ {fuel i : Nat}, (∀ j, i ≤ j → j < i + fuel → getU32 little l j ≠ marker) →
      seekU32Go l marker little fuel i = none := by
  intro fuel
  induction fuel with
  | zero => intro i _; rfl
  | succ n ih =>
    intro i h
    rw [seekU32Go]
    rw [if_neg (h i (Nat.le_refl _) (by omega))]
    exact ih fun j hj1 hj2 => h j (by omega) (by omega)

/-- Fuel irrelevance for the reassembly loop: any fuel at least the buffer
length gives the same result. -/
theorem processBufGo_fuel :
    ∀ (f f' : Nat) (buf : List Nat), buf.length ≤ f → buf.length ≤ f' →
      processBufGo f buf = processBufGo f' buf := by
  intro f
  induction f with
  | zero =>
    intro f' buf hf hf'
    have hb : buf = [] := List.eq_nil_of_length_eq_zero (by omega)
    subst hb
    cases f' with
    | zero => rfl
    | succ n => simp [processBufGo]
  | succ n ih =>
    intro f' buf hf hf'
    cases f' with
    | zero =>
      have hb : buf = [] := List.eq_nil_of_length_eq_zero (by omega)
      subst hb
      simp [processBufGo]
    | succ m =>
      rw [processBufGo, processBufGo]
      by_cases h20 : 20 ≤ buf.length
      · rw [if_pos h20, if_pos h20]
        by_cases hmag : getU32LE buf 0 = MAGIC
        · rw [if_pos hmag, if_pos hmag]
          by_cases hfull : 20 + getU32LE buf 12 ≤ buf.length
          · rw [if_pos hfull, if_pos hfull]
            have hrec := ih m (buf.drop (20 + getU32LE buf 12))
              (by simp [List.length_drop]; omega) (by simp [List.length_drop]; omega)
            rw [hrec]
          · rw [if_neg hfull, if_neg hfull]
        · rw [if_neg hmag, if_neg hmag]
          by_cases herr : getU32BE buf 0 = ERRSTART
          · rw [if_pos herr, if_pos herr]
            cases he : seekU32 buf ERREND false with
            | none => rfl
            | some e =>
              exact ih m (buf.drop (e + 4))
                (by simp [List.length_drop]; omega) (by simp [List.length_drop]; omega)
          · rw [if_neg herr, if_neg herr]
            cases hm : seekU32 buf MAGIC true with
            | none => rfl
            | some mp =>
              have hspec := seekU32Go_some hm
              have hmp1 : 1 ≤ mp := by
                rcases Nat.eq_zero_or_pos mp with h0 | h1
                · exfalso
                  apply hmag
                  have := hspec.2.2
                  rw [h0] at this
                  simpa [getU32] using this
                · exact h1
              exact ih m (buf.drop mp)
                (by simp [List.length_drop]; omega) (by simp [List.length_drop]; omega)
      · rw [if_neg h20, if_neg h20]

/-- A buffer shorter than a full header is left untouched. -/
theorem processBuffer_short {buf : List Nat} (h : buf.length < 20) :
    processBuffer buf = ([], buf) := by
  rw [processBuffer]
  cases hl : buf.length with
  | zero => rfl
  | succ n =>
    rw [processBufGo]
    rw [if_neg (by omega)]

/-- A 32-bit read that stays inside `l` is unchanged by appending bytes. -/
theorem getU32LE_append {l e : List Nat} {i : Nat} (h : i + 3 < l.length) :
    getU32LE (l ++ e) i = getU32LE l i := by
  unfold getU32LE
  rw [List.getD_append _ _ _ _ (by omega), List.getD_append _ _ _ _ (by omega),
      List.getD_append _ _ _ _ (by omega), List.getD_append _ _ _ _ (by omega)]

/-- A big-endian 32-bit read that stays inside `l` is unchanged by appending. -/
theorem getU32BE_append {l e : List Nat} {i : Nat} (h : i + 3 < l.length) :
    getU32BE (l ++ e) i = getU32BE l i := by
  unfold getU32BE
  rw [List.getD_append _ _ _ _ (by omega), List.getD_append _ _ _ _ (by omega),
      List.getD_append _ _ _ _ (by omega), List.getD_append _ _ _ _ (by omega)]

/-- Endianness-generic version of the two append lemmas. -/
theorem getU32_append {l e : List Nat} {i : Nat} {little : Bool} (h : i + 3 < l.length) :
    getU32 little (l ++ e) i = getU32 little l i := by
  cases little
  · simpa [getU32] using getU32BE_append (e := e) h
  · simpa [getU32] using getU32LE_append (e := e) h

/-- A successful seek whose scan window lies inside `l` returns the same
position after appending bytes, for any fuel at least the original. -/
theorem seekU32Go_append {l e : List Nat} {marker : Nat} {little : Bool} :
    ∀ {fuel fuel2 i j : Nat}, i + fuel + 3 ≤ l.length → fuel ≤ fuel2 →
      seekU32Go l marker little fuel i = some j →
      seekU32Go (l ++ e) marker little fuel2 i = some j := by
  intro fuel
  induction fuel with
  | zero => intro fuel2 i j _ _ h; simp [seekU32Go] at h
  | succ n ih =>
    intro fuel2 i j hw hf h
    cases fuel2 with
    | zero => omega
    | succ m =>
      rw [seekU32Go] at h ⊢
      rw [getU32_append (by omega)]
      by_cases hc : getU32 little l i = marker
      · rw [if_pos hc] at h ⊢; exact h
      · rw [if_neg hc] at h ⊢
        exact ih (by omega) (by omega) h

/-- `seekUint32` over the whole buffer is stable under appending bytes. -/
theorem seekU32_append {l e : List Nat} {marker j : Nat} {little : Bool}
    (h3 : 3 ≤ l.length) (h : seekU32 l marker little = some j) :
    seekU32 (l ++ e) marker little = some j := by
  unfold seekU32 at h ⊢
  exact seekU32Go_append (by omega) (by simp [List.length_append]; omega) h

/-- A found position lies at least 4 bytes before the end of the buffer. -/
theorem seekU32_lt {l : List Nat} {marker j : Nat} {little : Bool}
    (h : seekU32 l marker little = some j) : j + 3 < l.length := by
  unfold seekU32 at h
  have := seekU32Go_some h
  omega

/-- If the head word is not the magic, a successful magic seek is at a
strictly positive offset. -/
theorem seekU32_pos {buf : List Nat} {m : Nat} (hmag : getU32LE buf 0 ≠ MAGIC)
    (h : seekU32 buf MAGIC true = some m) : 1 ≤ m := by
  rcases Nat.eq_zero_or_pos m with h0 | h1
  · exfalso
    apply hmag
    have := (seekU32Go_some h).2.2
    rw [h0] at this
    simpa [getU32] using this
  · exact h1

/-- Unfolding `_handleData` once: a complete frame at the head of the
buffer is extracted and the loop continues on the rest. -/
theorem processBuffer_frame {buf : List Nat} (h20 : 20 ≤ buf.length)
    (hmag : getU32LE buf 0 = MAGIC) (hfull : 20 + getU32LE buf 12 ≤ buf.length) :
    processBuffer buf =
      (buf.take (20 + getU32LE buf 12) :: (processBuffer (buf.drop (20 + getU32LE buf 12))).1,
       (processBuffer (buf.drop (20 + getU32LE buf 12))).2) := by
  obtain ⟨n, hn⟩ : ∃ n, buf.length = n + 1 := ⟨buf.length - 1, by omega⟩
  rw [processBuffer, hn, processBufGo, if_pos h20, if_pos hmag, if_pos hfull]
  have hc : processBufGo n (buf.drop (20 + getU32LE buf 12)) =
      processBuffer (buf.drop (20 + getU32LE buf 12)) :=
    processBufGo_fuel n _ _ (by simp [List.length_drop]; omega) (le_refl _)
  rw [hc]

/-- Unfolding `_handleData` once: a magic header whose declared payload has
not fully arrived leaves the buffer untouched (wait for more data). -/
theorem processBuffer_awaitPayload {buf : List Nat} (h20 : 20 ≤ buf.length)
    (hmag : getU32LE buf 0 = MAGIC) (hfull : ¬ 20 + getU32LE buf 12 ≤ buf.length) :
    processBuffer buf = ([], buf) := by
  obtain ⟨n, hn⟩ : ∃ n, buf.length = n + 1 := ⟨buf.length - 1, by omega⟩
  rw [processBuffer, hn, processBufGo, if_pos h20, if_pos hmag, if_neg hfull]

/-- Unfolding `_handleData` once: an unterminated firmware-error block
leaves the buffer untouched (wait for its end marker). -/
theorem processBuffer_errWait {buf : List Nat} (h20 : 20 ≤ buf.length)
    (hmag : getU32LE buf 0 ≠ MAGIC) (herr : getU32BE buf 0 = ERRSTART)
    (hseek : seekU32 buf ERREND false = none) :
    processBuffer buf = ([], buf) := by
  obtain ⟨n, hn⟩ : ∃ n, buf.length = n + 1 := ⟨buf.length - 1, by omega⟩
  rw [processBuffer, hn, processBufGo, if_pos h20, if_neg hmag, if_pos herr, hseek]

/-- Unfolding `_handleData` once: a terminated firmware-error block is
dropped (through the end marker) and the loop continues. -/
theorem processBuffer_errSkip {buf : List Nat} {e : Nat} (h20 : 20 ≤ buf.length)
    (hmag : getU32LE buf 0 ≠ MAGIC) (herr : getU32BE buf 0 = ERRSTART)
    (hseek : seekU32 buf ERREND false = some e) :
    processBuffer buf = processBuffer (buf.drop (e + 4)) := by
  obtain ⟨n, hn⟩ : ∃ n, buf.length = n + 1 := ⟨buf.length - 1, by omega⟩
  rw [processBuffer, hn, processBufGo, if_pos h20, if_neg hmag, if_pos herr, hseek]
  exact processBufGo_fuel n _ _ (by simp [List.length_drop]; omega) (le_refl _)

/-- Unfolding `_handleData` once: non-magic data with no magic found
anywhere leaves the buffer untouched (wait for more data). -/
theorem processBuffer_noiseWait {buf : List Nat} (h20 : 20 ≤ buf.length)
    (hmag : getU32LE buf 0 ≠ MAGIC) (herr : getU32BE buf 0 ≠ ERRSTART)
    (hseek : seekU32 buf MAGIC true = none) :
    processBuffer buf = ([], buf) := by
  obtain ⟨n, hn⟩ : ∃ n, buf.length = n + 1 := ⟨buf.length - 1, by omega⟩
  rw [processBuffer, hn, processBufGo, if_pos h20, if_neg hmag, if_neg herr, hseek]

/-- Unfolding `_handleData` once: the non-magic prefix before a found magic
is dropped and the loop continues. -/
theorem processBuffer_noiseSkip {buf : List Nat} {m : Nat} (h20 : 20 ≤ buf.length)
    (hmag : getU32LE buf 0 ≠ MAGIC) (herr : getU32BE buf 0 ≠ ERRSTART)
    (hseek : seekU32 buf MAGIC true = some m) :
    processBuffer buf = processBuffer (buf.drop m) := by
  obtain ⟨n, hn⟩ : ∃ n, buf.length = n + 1 := ⟨buf.length - 1, by omega⟩
  have hm1 : 1 ≤ m := seekU32_pos hmag hseek
  rw [processBuffer, hn, processBufGo, if_pos h20, if_neg hmag, if_neg herr, hseek]
  exact processBufGo_fuel n _ _ (by simp [List.length_drop]; omega) (le_refl _)

/-- A blocked buffer (one the loop leaves untouched) contributes no frames
to the processing of any extension; this is the trivial case of the
append-composition law. -/
theorem processBuffer_append_blocked {buf : List Nat} (more : List Nat)
    (hb : processBuffer buf = ([], buf)) :
    processBuffer (buf ++ more) =
      ((processBuffer buf).1 ++ (processBuffer ((processBuffer buf).2 ++ more)).1,
       (processBuffer ((processBuffer buf).2 ++ more)).2) := by
  rw [hb]
  show processBuffer (buf ++ more) = ([] ++ (processBuffer (buf ++ more)).1,
    (processBuffer (buf ++ more)).2)
  rw [List.nil_append]

/-- Composition of the Stream Reassembler over appended input: processing
`buf ++ more` delivers the frames of `buf` followed by the frames obtained
by continuing from `buf`'s leftover with `more` appended. -/
theorem processBuffer_append (buf more : List Nat) :
    processBuffer (buf ++ more) =
      ((processBuffer buf).1 ++ (processBuffer ((processBuffer buf).2 ++ more)).1,
       (processBuffer ((processBuffer buf).2 ++ more)).2) := by
  suffices H : ∀ (L : Nat) (buf more : List Nat), buf.length ≤ L →
      processBuffer (buf ++ more) =
        ((processBuffer buf).1 ++ (processBuffer ((processBuffer buf).2 ++ more)).1,
         (processBuffer ((processBuffer buf).2 ++ more)).2) by
    exact H buf.length buf more (le_refl _)
  intro L
  induction L with
  | zero =>
    intro buf more hL
    have hb : buf = [] := List.eq_nil_of_length_eq_zero (by omega)
    subst hb
    exact processBuffer_append_blocked more (processBuffer_short (by simp))
  | succ n ih =>
    intro buf more hL
    by_cases h20 : 20 ≤ buf.length
    · by_cases hmag : getU32LE buf 0 = MAGIC
      · have hmag' : getU32LE (buf ++ more) 0 = MAGIC := by
          rw [getU32LE_append (by omega)]; exact hmag
        have hlen' : getU32LE (buf ++ more) 12 = getU32LE buf 12 :=
          getU32LE_append (by omega)
        by_cases hfull : 20 + getU32LE buf 12 ≤ buf.length
        · have h20' : 20 ≤ (buf ++ more).length := by simp [List.length_append]; omega
          have hfull' : 20 + getU32LE (buf ++ more) 12 ≤ (buf ++ more).length := by
            rw [hlen']; simp [List.length_append]; omega
          rw [processBuffer_frame h20' hmag' hfull', hlen']
          rw [List.take_append_of_le_length (by omega),
              List.drop_append_of_le_length (by omega)]
          rw [processBuffer_frame h20 hmag hfull]
          have hrec := ih (buf.drop (20 + getU32LE buf 12)) more
            (by simp [List.length_drop]; omega)
          rw [hrec]
          simp
        · exact processBuffer_append_blocked more (processBuffer_awaitPayload h20 hmag hfull)
      · by_cases herr : getU32BE buf 0 = ERRSTART
        · cases hseek : seekU32 buf ERREND false with
          | none =>
            exact processBuffer_append_blocked more (processBuffer_errWait h20 hmag herr hseek)
          | some e =>
            have hmag' : getU32LE (buf ++ more) 0 ≠ MAGIC := by
              rw [getU32LE_append (by omega)]; exact hmag
            have herr' : getU32BE (buf ++ more) 0 = ERRSTART := by
              rw [getU32BE_append (by omega)]; exact herr
            have h20' : 20 ≤ (buf ++ more).length := by simp [List.length_append]; omega
            have hseek' : seekU32 (buf ++ more) ERREND false = some e :=
              seekU32_append (by omega) hseek
            have hebound : e + 3 < buf.length := seekU32_lt hseek
            rw [processBuffer_errSkip h20' hmag' herr' hseek',
                processBuffer_errSkip h20 hmag herr hseek]
            rw [List.drop_append_of_le_length (by omega)]
            exact ih (buf.drop (e + 4)) more (by simp [List.length_drop]; omega)
        · cases hseek : seekU32 buf MAGIC true with
          | none =>
            exact processBuffer_append_blocked more (processBuffer_noiseWait h20 hmag herr hseek)
          | some m =>
            have hmag' : getU32LE (buf ++ more) 0 ≠ MAGIC := by
              rw [getU32LE_append (by omega)]; exact hmag
            have herr' : getU32BE (buf ++ more) 0 ≠ ERRSTART := by
              rw [getU32BE_append (by omega)]; exact herr
            have h20' : 20 ≤ (buf ++ more).length := by simp [List.length_append]; omega
            have hseek' : seekU32 (buf ++ more) MAGIC true = some m :=
              seekU32_append (by omega) hseek
            have hmbound : m + 3 < buf.length := seekU32_lt hseek
            have hm1 : 1 ≤ m := seekU32_pos hmag hseek
            rw [processBuffer_noiseSkip h20' hmag' herr' hseek',
                processBuffer_noiseSkip h20 hmag herr hseek]
            rw [List.drop_append_of_le_length (by omega)]
            exact ih (buf.drop m) more (by simp [List.length_drop]; omega)
    · exact processBuffer_append_blocked more (processBuffer_short (by omega))

/-- The leftover buffer of the Stream Reassembler is blocked: running the
loop on it again delivers nothing and changes nothing. -/
theorem processBuffer_snd_fix (buf : List Nat) :
    processBuffer (processBuffer buf).2 = ([], (processBuffer buf).2) := by
  suffices H : ∀ (L : Nat) (buf : List Nat), buf.length ≤ L →
      processBuffer (processBuffer buf).2 = ([], (processBuffer buf).2) by
    exact H buf.length buf (le_refl _)
  intro L
  induction L with
  | zero =>
    intro buf hL
    have hb : buf = [] := List.eq_nil_of_length_eq_zero (by omega)
    subst hb
    have hshort : processBuffer ([] : List Nat) = ([], []) := processBuffer_short (by simp)
    rw [hshort]
    exact hshort
  | succ n ih =>
    intro buf hL
    by_cases h20 : 20 ≤ buf.length
    · by_cases hmag : getU32LE buf 0 = MAGIC
      · by_cases hfull : 20 + getU32LE buf 12 ≤ buf.length
        · rw [processBuffer_frame h20 hmag hfull]
          exact ih (buf.drop (20 + getU32LE buf 12)) (by simp [List.length_drop]; omega)
        · have hb := processBuffer_awaitPayload h20 hmag hfull
          rw [hb]
          exact hb
      · by_cases herr : getU32BE buf 0 = ERRSTART
        · cases hseek : seekU32 buf ERREND false with
          | none =>
            have hb := processBuffer_errWait h20 hmag herr hseek
            rw [hb]
            exact hb
          | some e =>
            rw [processBuffer_errSkip h20 hmag herr hseek]
            have hebound : e + 3 < buf.length := seekU32_lt hseek
            exact ih (buf.drop (e + 4)) (by simp [List.length_drop]; omega)
        · cases hseek : seekU32 buf MAGIC true with
          | none =>
            have hb := processBuffer_noiseWait h20 hmag herr hseek
            rw [hb]
            exact hb
          | some m =>
            have hm1 : 1 ≤ m := seekU32_pos hmag hseek
            rw [processBuffer_noiseSkip h20 hmag herr hseek]
            exact ih (buf.drop m) (by simp [List.length_drop]; omega)
    · have hb := processBuffer_short (Nat.lt_of_not_le h20)
      rw [hb]
      exact hb

/-- Feeding a sequence of received USB chunks to `_handleData` one at a
time, starting from receive-buffer state `buf`: each chunk is appended to
the buffer and the reassembly loop is run; frames accumulate in order. -/
def feedChunks : List Nat → List (List Nat) → List (List Nat) × List Nat
  | buf, [] => ([], buf)
  | buf, c :: cs =>
    ((processBuffer (buf ++ c)).1 ++ (feedChunks (processBuffer (buf ++ c)).2 cs).1,
     (feedChunks (processBuffer (buf ++ c)).2 cs).2)

/-- Feeding fragments from a blocked buffer state equals feeding their
concatenation at once. -/
theorem feedChunks_join :
    ∀ (chunks : List (List Nat)) (buf : List Nat), processBuffer buf = ([], buf) →
      feedChunks buf chunks = processBuffer (buf ++ chunks.flatten) := by
  intro chunks
  induction chunks with
  | nil =>
    intro buf hbuf
    rw [feedChunks]
    simp only [List.flatten_nil, List.append_nil]
    exact hbuf.symm
  | cons c cs ih =>
    intro buf hbuf
    rw [feedChunks]
    have hfix : processBuffer (processBuffer (buf ++ c)).2 = ([], (processBuffer (buf ++ c)).2) :=
      processBuffer_snd_fix (buf ++ c)
    rw [ih (processBuffer (buf ++ c)).2 hfix]
    have hjoin : buf ++ (c :: cs).flatten = (buf ++ c) ++ cs.flatten := by
      simp [List.flatten_cons, List.append_assoc]
    rw [hjoin, processBuffer_append (buf ++ c) cs.flatten]

/-- Modelled from the spec: the repository imports `crc32FromArrayBuffer`
from `src/lib/crc32.ts`, whose source is not included here; §4.1 fixes it
as "the CRC-32 variant compatible with the device firmware (standard IEEE
polynomial, as used by common zlib-style implementations)". One bit step
of the reflected CRC-32 with polynomial `0xEDB88320`. -/
def crc32Step (c : Nat) : Nat :=
  if c % 2 = 1 then (c / 2) ^^^ 0xEDB88320 else c / 2

/-- Modelled from the spec: one byte step of zlib-style CRC-32. -/
def crc32Byte (c b : Nat) : Nat :=
  crc32Step^[8] (c ^^^ b % 256)

/-- Modelled from the spec: zlib-style CRC-32 of a byte sequence
(initial value `0xFFFFFFFF`, final xor `0xFFFFFFFF`). -/
def crc32 (bytes : List Nat) : Nat :=
  (bytes.foldl crc32Byte 0xFFFFFFFF) ^^^ 0xFFFFFFFF

/-- A CRC bit step keeps the accumulator below `2 ^ 32`. -/
theorem crc32Step_lt {c : Nat} (h : c < 2 ^ 32) : crc32Step c < 2 ^ 32 := by
  unfold crc32Step
  have hd : c / 2 < 2 ^ 32 := by omega
  by_cases hc : c % 2 = 1
  · rw [if_pos hc]
    exact Nat.xor_lt_two_pow hd (by norm_num)
  · rw [if_neg hc]
    exact hd

/-- A CRC byte step keeps the accumulator below `2 ^ 32`. -/
theorem crc32Byte_lt {c : Nat} (b : Nat) (h : c < 2 ^ 32) : crc32Byte c b < 2 ^ 32 := by
  unfold crc32Byte
  have hx : c ^^^ b % 256 < 2 ^ 32 :=
    Nat.xor_lt_two_pow h (by have := Nat.mod_lt b (y := 256) (by norm_num); omega)
  have hiter : ∀ n x, x < 2 ^ 32 → crc32Step^[n] x < 2 ^ 32 := by
    intro n
    induction n with
    | zero => intro x hx2; simpa using hx2
    | succ k ih =>
      intro x hx2
      rw [Function.iterate_succ_apply]
      exact ih _ (crc32Step_lt hx2)
  exact hiter 8 _ hx

/-- CRC-32 values fit in 32 bits. -/
theorem crc32_lt (bytes : List Nat) : crc32 bytes < 2 ^ 32 := by
  unfold crc32
  have hfold : ∀ (l : List Nat) (c : Nat), c < 2 ^ 32 → l.foldl crc32Byte c < 2 ^ 32 := by
    intro l
    induction l with
    | nil => intro c hc; simpa using hc
    | cons x xs ih =>
      intro c hc
      rw [List.foldl_cons]
      exact ih _ (crc32Byte_lt x hc)
  exact Nat.xor_lt_two_pow (hfold bytes _ (by norm_num)) (by norm_num)

/-- The four little-endian bytes written by `DataView.setUint32(_, n, true)`. -/
def u32le (n : Nat) : List Nat :=
  [n % 256, n / 256 % 256, n / 65536 % 256, n / 16777216 % 256]

/-- `BadgeUSB._sendPacket(id, command, payload)`: the 20-byte header
(magic, transaction id, command, payload length, payload CRC — zero when
the payload is empty, `crc32FromArrayBuffer(payload)` otherwise), followed
by the payload. -/
def encodePacket (id cmd : Nat) (payload : List Nat) : List Nat :=
  u32le MAGIC ++ (u32le id ++ (u32le cmd ++ (u32le payload.length ++
    (u32le (if 0 < payload.length then crc32 payload else 0) ++ payload))))

/-- Reading a 32-bit little-endian field back from its four bytes. -/
theorem getU32LE_block0 (n : Nat) (rest : List Nat) :
    getU32LE (u32le n ++ rest) 0 = n % 4294967296 := by
  show n % 256 + 256 * (n / 256 % 256) + 65536 * (n / 65536 % 256) +
    16777216 * (n / 16777216 % 256) = n % 4294967296
  omega

/-- Reading the second header field of an encoded packet. -/
theorem getU32LE_block4 (m b : Nat) (rest : List Nat) :
    getU32LE (u32le m ++ (u32le b ++ rest)) 4 = b % 4294967296 := by
  show getU32LE (u32le b ++ rest) 0 = b % 4294967296
  exact getU32LE_block0 b rest

/-- Reading the third header field of an encoded packet. -/
theorem getU32LE_block8 (m a b : Nat) (rest : List Nat) :
    getU32LE (u32le m ++ (u32le a ++ (u32le b ++ rest))) 8 = b % 4294967296 := by
  show getU32LE (u32le b ++ rest) 0 = b % 4294967296
  exact getU32LE_block0 b rest

/-- Reading the fourth header field of an encoded packet. -/
theorem getU32LE_block12 (m a a2 b : Nat) (rest : List Nat) :
    getU32LE (u32le m ++ (u32le a ++ (u32le a2 ++ (u32le b ++ rest)))) 12 = b % 4294967296 := by
  show getU32LE (u32le b ++ rest) 0 = b % 4294967296
  exact getU32LE_block0 b rest

/-- Reading the fifth header field of an encoded packet. -/
theorem getU32LE_block16 (m a a2 a3 b : Nat) (rest : List Nat) :
    getU32LE (u32le m ++ (u32le a ++ (u32le a2 ++ (u32le a3 ++ (u32le b ++ rest))))) 16 =
      b % 4294967296 := by
  show getU32LE (u32le b ++ rest) 0 = b % 4294967296
  exact getU32LE_block0 b rest

/-- Dropping the 20-byte header of an encoded packet leaves the payload. -/
theorem drop20_blocks (m a a2 a3 a4 : Nat) (p : List Nat) :
    (u32le m ++ (u32le a ++ (u32le a2 ++ (u32le a3 ++ (u32le a4 ++ p))))).drop 20 = p := rfl

/-- An encoded packet is exactly 20 header bytes plus the payload. -/
theorem encodePacket_length (id cmd : Nat) (p : List Nat) :
    (encodePacket id cmd p).length = 20 + p.length := by
  simp [encodePacket, u32le]
  omega

/-- The header fields and payload that `BadgeUSB._handlePacket` reads from
a delivered packet. -/
structure RxFrame where
  id : Nat
  ftype : Nat
  payloadLen : Nat
  payloadCRC : Nat
  payload : List Nat
deriving DecidableEq

/-- The parsing prelude of `BadgeUSB._handlePacket`: id, response type,
declared payload length and CRC from the header; the payload is
`buffer.slice(20)` when the declared length is positive and stays the
empty buffer otherwise. -/
def parseFrame (pkt : List Nat) : RxFrame :=
  { id := getU32LE pkt 4
    ftype := getU32LE pkt 8
    payloadLen := getU32LE pkt 12
    payloadCRC := getU32LE pkt 16
    payload := if 0 < getU32LE pkt 12 then pkt.drop 20 else [] }

/-- The CRC acceptance condition of `_handlePacket`: an empty payload is
valid by construction, otherwise the recomputed CRC-32 must equal the
header field. -/
def crcPass (f : RxFrame) : Prop :=
  f.payloadLen = 0 ∨ crc32 f.payload = f.payloadCRC

instance (f : RxFrame) : Decidable (crcPass f) := by
  unfold crcPass
  infer_instance

/-- Claim C4 theorem: feeding the exact bytes produced by `_sendPacket`
into the Stream Reassembler yields exactly that one packet with nothing
left over, and decoding it recovers the encoded transaction id, command
and payload, with the CRC check passing (the stored CRC is `crc32 p` for
non-empty `p` and `0` for empty `p`). -/
theorem frame_codec_roundtrip (id cmd : Nat) (p : List Nat)
    (hid : id < 2 ^ 32) (hcmd : cmd < 2 ^ 32) (hp : p.length < 2 ^ 32) :
    processBuffer (encodePacket id cmd p) = ([encodePacket id cmd p], []) ∧
    parseFrame (encodePacket id cmd p) =
      { id := id, ftype := cmd, payloadLen := p.length,
        payloadCRC := if 0 < p.length then crc32 p else 0, payload := p } ∧
    crcPass (parseFrame (encodePacket id cmd p)) := by
  have h32 : (2 : Nat) ^ 32 = 4294967296 := by norm_num
  rw [h32] at hid hcmd hp
  have hlen : (encodePacket id cmd p).length = 20 + p.length := encodePacket_length id cmd p
  have hmagic : getU32LE (encodePacket id cmd p) 0 = MAGIC := by
    show getU32LE (u32le MAGIC ++ (u32le id ++ (u32le cmd ++ (u32le p.length ++
      (u32le (if 0 < p.length then crc32 p else 0) ++ p))))) 0 = MAGIC
    rw [getU32LE_block0]
    decide
  have hid' : getU32LE (encodePacket id cmd p) 4 = id := by
    show getU32LE (u32le MAGIC ++ (u32le id ++ (u32le cmd ++ (u32le p.length ++
      (u32le (if 0 < p.length then crc32 p else 0) ++ p))))) 4 = id
    rw [getU32LE_block4]
    omega
  have hcmd' : getU32LE (encodePacket id cmd p) 8 = cmd := by
    show getU32LE (u32le MAGIC ++ (u32le id ++ (u32le cmd ++ (u32le p.length ++
      (u32le (if 0 < p.length then crc32 p else 0) ++ p))))) 8 = cmd
    rw [getU32LE_block8]
    omega
  have hplen : getU32LE (encodePacket id cmd p) 12 = p.length := by
    show getU32LE (u32le MAGIC ++ (u32le id ++ (u32le cmd ++ (u32le p.length ++
      (u32le (if 0 < p.length then crc32 p else 0) ++ p))))) 12 = p.length
    rw [getU32LE_block12]
    omega
  have hcrcfield : getU32LE (encodePacket id cmd p) 16 =
      (if 0 < p.length then crc32 p else 0) := by
    show getU32LE (u32le MAGIC ++ (u32le id ++ (u32le cmd ++ (u32le p.length ++
      (u32le (if 0 < p.length then crc32 p else 0) ++ p))))) 16 =
      (if 0 < p.length then crc32 p else 0)
    rw [getU32LE_block16]
    have hclt : (if 0 < p.length then crc32 p else 0) < 2 ^ 32 := by
      by_cases h : 0 < p.length
      · rw [if_pos h]; exact crc32_lt p
      · rw [if_neg h]; norm_num
    rw [h32] at hclt
    omega
  have hdrop : (encodePacket id cmd p).drop 20 = p := by
    show (u32le MAGIC ++ (u32le id ++ (u32le cmd ++ (u32le p.length ++
      (u32le (if 0 < p.length then crc32 p else 0) ++ p))))).drop 20 = p
    exact drop20_blocks _ _ _ _ _ p
  have htake : (encodePacket id cmd p).take (20 + p.length) = encodePacket id cmd p :=
    List.take_of_length_le (by omega)
  have hdropall : (encodePacket id cmd p).drop (20 + p.length) = [] :=
    List.drop_eq_nil_of_le (by omega)
  refine ⟨?_, ?_, ?_⟩
  · rw [processBuffer_frame (by omega) hmagic (by rw [hplen]; omega), hplen, htake, hdropall,
      processBuffer_short (by simp)]
  · unfold parseFrame
    rw [hid', hcmd', hplen, hcrcfield, hdrop]
    by_cases h : 0 < p.length
    · simp only [if_pos h]
    · have hpnil : p = [] := List.eq_nil_of_length_eq_zero (by omega)
      subst hpnil
      simp
  · unfold crcPass parseFrame
    simp only
    rw [hplen, hcrcfield, hdrop]
    by_cases h : 0 < p.length
    · simp only [if_pos h]
      exact Or.inr trivial
    · exact Or.inl (by omega)

/-- Witness for C4 at transaction id 7, command 5, payload `[1, 2, 3]`. -/
theorem frame_codec_roundtrip_witness :
    processBuffer (encodePacket 7 5 [1, 2, 3]) = ([encodePacket 7 5 [1, 2, 3]], []) ∧
    parseFrame (encodePacket 7 5 [1, 2, 3]) =
      { id := 7, ftype := 5, payloadLen := 3,
        payloadCRC := if 0 < [1, 2, 3].length then crc32 [1, 2, 3] else 0,
        payload := [1, 2, 3] } ∧
    crcPass (parseFrame (encodePacket 7 5 [1, 2, 3])) := by
  have h := frame_codec_roundtrip 7 5 [1, 2, 3] (by norm_num) (by norm_num) (by norm_num)
  simpa using h

/-- The typed errors a transaction caller can receive: `TimeoutError`,
the `RXError` wrapping a CRC verification failure, and `BadgeUSBError`
carrying the device's error response type code. -/
inductive TxError where
  | timeoutError : TxError
  | crcError : TxError
  | deviceError (code : Nat) : TxError
deriving DecidableEq

/-- What `BadgeUSB._handlePacket` does with a packet: reject the matching
pending transaction on CRC mismatch, resolve it otherwise, or log and
discard when no transaction matches the id. -/
inductive DispatchOutcome where
  | resolvedOk (id : Nat) (f : RxFrame) : DispatchOutcome
  | rejectedCRC (id : Nat) (f : RxFrame) : DispatchOutcome
  | unmatched (id : Nat) : DispatchOutcome
deriving DecidableEq

/-- `BadgeUSB._handlePacket`, with the transaction registry abstracted to
the list of pending transaction ids: on a positive declared payload length
whose recomputed CRC-32 differs from the header field, the matching
transaction is rejected and removed (or the frame is discarded when
unmatched); otherwise the matching transaction is resolved and removed. -/
def handlePacket (registry : List Nat) (pkt : List Nat) : List Nat × DispatchOutcome :=
  let f := parseFrame pkt
  if 0 < f.payloadLen ∧ crc32 f.payload ≠ f.payloadCRC then
    if f.id ∈ registry then (registry.erase f.id, .rejectedCRC f.id f)
    else (registry, .unmatched f.id)
  else
    if f.id ∈ registry then (registry.erase f.id, .resolvedOk f.id f)
    else (registry, .unmatched f.id)

/-- How `BadgeUSB.transaction` turns the settled `TransactionPromise` into
the caller's result: a CRC rejection surfaces as an `RXError` (integrity
error), a resolved response whose type differs from the sent command
becomes a `BadgeUSBError` with that type code, and a matching response
returns its payload; an unmatched frame settles nobody (`none`). -/
def callerSettle (res : DispatchOutcome) (command : Nat) : Option (Except TxError (List Nat)) :=
  match res with
  | .resolvedOk _ f =>
    some (if f.ftype = command then .ok f.payload else .error (.deviceError f.ftype))
  | .rejectedCRC _ _ => some (.error .crcError)
  | .unmatched _ => none

/-- The per-connection state that `BadgeUSB.transaction` and its timeout
handler touch: the pending-transaction registry, the id counter, and the
`inSync` flag. -/
structure Session where
  registry : List Nat
  nextTransactionID : Nat
  inSync : Bool
deriving DecidableEq

/-- What settles a pending transaction first: the timeout timer firing, or
a response packet arriving from the receive task. -/
inductive TxEvent where
  | timerFires : TxEvent
  | responseArrives (pkt : List Nat) : TxEvent

/-- `BadgeUSB.transaction(command, payload, timeout)`: a fresh id is taken
and registered (the id counter advancing modulo `2 ^ 32`), and the
transaction then settles by whichever of the two events comes first. A
firing timer (armed only for positive `timeout`) rejects the caller with
`TimeoutError`, deletes the registry entry and clears `inSync`; with a
zero timeout no timer exists and the caller stays pending. An arriving
packet is dispatched by `_handlePacket` and the caller settles per
`callerSettle`. -/
def transactionRun (st : Session) (command timeout : Nat) (ev : TxEvent) :
    Session × Option (Except TxError (List Nat)) :=
  let id := st.nextTransactionID
  let reg1 := if id ∈ st.registry then st.registry else st.registry ++ [id]
  let next1 := (st.nextTransactionID + 1) % 2 ^ 32
  match ev with
  | .timerFires =>
    if 0 < timeout then
      ({ registry := reg1.erase id, nextTransactionID := next1, inSync := false },
        some (.error .timeoutError))
    else
      ({ registry := reg1, nextTransactionID := next1, inSync := st.inSync }, none)
  | .responseArrives pkt =>
    ({ registry := (handlePacket reg1 pkt).1, nextTransactionID := next1,
       inSync := st.inSync },
      callerSettle (handlePacket reg1 pkt).2 command)

/-- The result of `Queue.waitTurn` as seen by the caller at call time: an
immediately granted token, or suspension in the FIFO wait list. -/
inductive WaitResult where
  | granted (t : Nat) : WaitResult
  | queuedUp : WaitResult
deriving DecidableEq

/-- The state of `Queue` from `src/lib/queue.ts`: the token counter, the
currently held token, the FIFO list of suspended waiters (identified by a
caller label, with their requested turn timeout), and the armed expiry
timer duration. -/
structure QueueState where
  nextToken : Nat
  current : Option Nat
  waiting : List (Nat × Option Nat)
  timer : Option Nat
deriving DecidableEq

/-- `Queue`'s constructor default `defaultTimeout` (5000 ms). -/
def qDefaultTimeout : Nat := 5000

/-- `Queue.waitTurn(options)` by caller `label`: with no current holder the
caller is granted a fresh token and the expiry timer is reset; a caller
presenting the currently held token is let through (reentrant chaining,
timer reset); anyone else is appended to the FIFO wait list. -/
def waitTurn (qs : QueueState) (label : Nat) (tok turnTimeout : Option Nat) :
    QueueState × WaitResult :=
  match qs.current with
  | none =>
    ({ nextToken := qs.nextToken + 1, current := some qs.nextToken,
       waiting := qs.waiting, timer := some (turnTimeout.getD qDefaultTimeout) },
      .granted qs.nextToken)
  | some c =>
    if tok = some c then
      ({ qs with timer := some (turnTimeout.getD qDefaultTimeout) }, .granted c)
    else
      ({ qs with waiting := qs.waiting ++ [(label, turnTimeout)] }, .queuedUp)

/-- `Queue.release(token)`: only the currently held token releases the
queue; then the head FIFO waiter (if any) is resolved with a fresh token
and the timer is reset for it, else the queue becomes idle and the timer
is cleared. The second component reports which waiter label was granted
which token (`none` when no waiter was resolved). -/
def releaseQ (qs : QueueState) (t : Nat) : QueueState × Option (Nat × Nat) :=
  if qs.current = some t then
    match qs.waiting with
    | w :: rest =>
      ({ nextToken := qs.nextToken + 1, current := some qs.nextToken,
         waiting := rest, timer := some (w.2.getD qDefaultTimeout) },
        some (w.1, qs.nextToken))
    | [] =>
      ({ qs with current := none, timer := none }, none)
  else (qs, none)

/-- Typed failures of `BadgeUSB.connect`'s sync phase. -/
inductive ConnectError where
  | syncFailed : ConnectError
  | versionNotSupported : ConnectError
deriving DecidableEq

/-- The sync retry loop of `BadgeUSB.connect`: `n` attempts have been made
so far; `if (++n > 100) throw` caps the loop at 100 attempts, each attempt
asking the device (the oracle, indexed by attempt number) for a protocol
version. The fuel argument only mirrors the remaining attempts
(`100 - n`), keeping the recursion structural. -/
def connectSyncGo (oracle : Nat → Option Nat) : Nat → Nat → Except ConnectError Nat
  | fuel, n =>
    if 100 < n + 1 then .error .syncFailed
    else
      match fuel with
      | 0 => .error .syncFailed
      | fuel' + 1 =>
        match oracle (n + 1) with
        | some v => .ok v
        | none => connectSyncGo oracle fuel' (n + 1)

/-- `BadgeUSB.connect`'s sync phase: run the retry loop from zero attempts,
then reject protocol versions below 2. -/
def connectModel (oracle : Nat → Option Nat) : Except ConnectError Nat :=
  match connectSyncGo oracle 100 0 with
  | .error e => .error e
  | .ok v => if v < 2 then .error .versionNotSupported else .ok v

/-- Observation of `BadgeUSB.syncIfNeeded`'s `while (!inSync)` loop after a
bounded number of observed iterations. -/
inductive SyncLoopState where
  | synced : SyncLoopState
  | stillLooping : SyncLoopState
deriving DecidableEq

/-- `BadgeUSB.syncIfNeeded`: `while (!this.inSync) await this.sync()`. The
loop body has no attempt counter and no failure exit; `fuel` only bounds
how many iterations we observe, `k` numbers the attempts for the oracle. -/
def syncIfNeededGo (oracle : Nat → Option Nat) : Nat → Nat → SyncLoopState
  | 0, _ => .stillLooping
  | fuel + 1, k =>
    match oracle k with
    | some _ => .synced
    | none => syncIfNeededGo oracle fuel (k + 1)

/-- The pull loop shared by `BadgeFileSystemApi.readFile` and
`BadgeAppFSApi.read`: over the successive `CHNK` responses, push each
received chunk and stop as soon as a response of fewer than 1 byte
arrives. Returns the collected chunks and the number of pull transactions
issued, or `none` if the response list is exhausted with the loop still
running. -/
def pullLoop : List (List Nat) → Option (List (List Nat) × Nat)
  | [] => none
  | part :: rest =>
    if part.length < 1 then some ([], 1)
    else
      match pullLoop rest with
      | none => none
      | some (ps, n) => some (part :: ps, n + 1)

/-- The transactions a bulk filesystem / appfs operation issues. -/
inductive BulkCmd where
  | fsOpenRead : BulkCmd
  | appAlloc : BulkCmd
  | chunkTx : BulkCmd
  | closeTx : BulkCmd
deriving DecidableEq

/-- The chunk loop of `BadgeFileSystemApi.readFile` viewed as the trace of
transactions it issues, over the successive chunk-transaction results: a
throwing chunk transaction propagates (no close); an empty chunk ends the
loop, after which `closeFile()` is issued. -/
def rfLoopTrace : List (Except TxError (List Nat)) → List BulkCmd
  | [] => [.chunkTx]
  | .error _ :: _ => [.chunkTx]
  | .ok part :: rest =>
    if part.length < 1 then [.chunkTx, .closeTx]
    else .chunkTx :: rfLoopTrace rest

/-- `BadgeFileSystemApi.readFile` as the trace of transactions it issues,
over the successive transaction results (open first, then chunks): a
throwing open propagates; an open response whose first byte is not 1
throws `Failed to open file`; both leave without a close. -/
def readFileTrace (responses : List (Except TxError (List Nat))) : List BulkCmd :=
  match responses with
  | [] => [.fsOpenRead]
  | .error _ :: _ => [.fsOpenRead]
  | .ok r :: rest =>
    if r.getD 0 0 = 1 then .fsOpenRead :: rfLoopTrace rest else [.fsOpenRead]

/-- The write loop of `BadgeAppFSApi.write` viewed as the trace of
transactions it issues: while data remains, a 1024-byte slice is sent; a
throwing chunk transaction propagates and a written-count below 1 throws
`Write failed`, both without a close; when all data is consumed the loop
ends and `closeFile()` is issued. -/
def awLoopTrace : List (Except TxError (List Nat)) → List Nat → List BulkCmd
  | responses, data =>
    if data.length = 0 then [.closeTx]
    else if (data.take 1024).length < 1 then [.closeTx]
    else
      match responses with
      | [] => [.chunkTx]
      | .error _ :: _ => [.chunkTx]
      | .ok r :: rest =>
        if getU32LE r 0 < 1 then [.chunkTx]
        else .chunkTx :: awLoopTrace rest (data.drop (getU32LE r 0))

/-- `BadgeAppFSApi.write` as the trace of transactions it issues, over the
successive transaction results (allocation first, then chunk pushes): a
throwing allocation propagates; an allocation response whose first byte is
not 1 throws `Failed to allocate app`; both leave without a close. -/
def appWriteTrace (responses : List (Except TxError (List Nat))) (data : List Nat) :
    List BulkCmd :=
  match responses with
  | [] => [.appAlloc]
  | .error _ :: _ => [.appAlloc]
  | .ok r :: rest =>
    if r.getD 0 0 = 1 then .appAlloc :: awLoopTrace rest data else [.appAlloc]

/-- Claim C1 counterexample: the 20-byte all-zero buffer satisfies every
premise of the claim (length at least 20, no magic at the head, no
firmware-error escape start, no magic anywhere), yet `_handleData` keeps
the entire 20-byte buffer instead of dropping it down to a remainder too
short to contain the 4-byte magic. -/
theorem noise_buffer_not_dropped_cex :
    20 ≤ (List.replicate 20 0 : List Nat).length ∧
    getU32LE (List.replicate 20 0) 0 ≠ MAGIC ∧
    getU32BE (List.replicate 20 0) 0 ≠ ERRSTART ∧
    (∀ i, i + 3 < (List.replicate 20 0 : List Nat).length →
      getU32LE (List.replicate 20 0) i ≠ MAGIC) ∧
    processBuffer (List.replicate 20 0) = ([], List.replicate 20 0) ∧
    ¬ (processBuffer (List.replicate 20 0)).2.length < 4 := by
  refine ⟨by decide, by decide, by decide, ?_, by decide, by decide⟩
  intro i hi
  exact (by decide : ∀ j < 17, getU32LE (List.replicate 20 0) j ≠ MAGIC) i
    (by simp at hi; omega)

/-- Claim C1 amended theorem: on a buffer of length at least 20 that does
not start with the magic nor with a firmware-error escape block and that
contains the magic nowhere, `_handleData` delivers nothing and leaves the
buffer completely unchanged (it waits for more data; nothing is dropped,
so the buffered byte count is not reduced). -/
theorem noise_buffer_waits (buf : List Nat)
    (hlen : 20 ≤ buf.length)
    (hmag : getU32LE buf 0 ≠ MAGIC)
    (herr : getU32BE buf 0 ≠ ERRSTART)
    (hnomagic : ∀ i, i + 3 < buf.length → getU32LE buf i ≠ MAGIC) :
    processBuffer buf = ([], buf) := by
  apply processBuffer_noiseWait hlen hmag herr
  unfold seekU32
  apply seekU32Go_none
  intro j hj1 hj2
  have := hnomagic j (by omega)
  simpa [getU32] using this

/-- Witness for the amended C1 theorem on the 20-byte all-zero buffer. -/
theorem noise_buffer_waits_witness :
    processBuffer (List.replicate 20 0) = ([], List.replicate 20 0) :=
  noise_buffer_waits (List.replicate 20 0) (by decide) (by decide) (by decide)
    (fun i hi => (by decide : ∀ j < 17, getU32LE (List.replicate 20 0) j ≠ MAGIC) i
      (by simp at hi; omega))

/-- Claim C5 theorem: feeding any byte sequence to the Stream Reassembler
split into any sequence of fragments produces exactly the frames, in the
same order (and the same leftover buffer), as feeding the concatenation as
one contiguous block. -/
theorem reassembler_fragmentation_invariance (chunks : List (List Nat)) :
    feedChunks [] chunks = processBuffer chunks.flatten := by
  have h := feedChunks_join chunks [] (processBuffer_short (by simp))
  simpa using h

/-- Claim C2 counterexample: with declared chunk size 512, a 3-byte chunk
(shorter than 512) does not terminate the pull loop of
`BadgeFileSystemApi.readFile` / `BadgeAppFSApi.read`: the loop keeps it,
issues a second pull, and only the subsequent empty chunk terminates —
the claim predicts termination after the first pull. -/
theorem pull_loop_short_chunk_cex :
    pullLoop [[7, 7, 7], []] = some ([[7, 7, 7]], 2) ∧ (3 : Nat) < 512 := by
  decide

/-- Claim C2 amended theorem: the pull loop terminates exactly when a
chunk of fewer than 1 byte (an empty chunk) arrives — no non-empty chunk,
of any length, terminates it — and returns exactly the chunks received
before the empty one, in arrival order (so the assembled buffer is their
concatenation), having issued one pull per chunk including the final
empty one. -/
theorem pull_loop_empty_terminates (pre post : List (List Nat))
    (h : ∀ c ∈ pre, c ≠ []) :
    pullLoop (pre ++ [] :: post) = some (pre, pre.length + 1) ∧ pullLoop pre = none := by
  induction pre with
  | nil =>
    refine ⟨?_, rfl⟩
    rw [List.nil_append, pullLoop]
    simp
  | cons c cs ih =>
    have hc : c ≠ [] := h c (by simp)
    have hclen : ¬ c.length < 1 := by
      have := List.length_pos.mpr hc
      omega
    obtain ⟨ih1, ih2⟩ := ih fun x hx => h x (by simp [hx])
    constructor
    · rw [List.cons_append, pullLoop, if_neg hclen, ih1]
      simp
    · rw [pullLoop, if_neg hclen, ih2]

/-- Witness for the amended C2 theorem: two non-empty chunks, then the
empty chunk; the loop returns both chunks after three pulls. -/
theorem pull_loop_empty_terminates_witness :
    pullLoop ([[5], [6, 6]] ++ [] :: [[9]]) = some ([[5], [6, 6]], 3) ∧
    pullLoop [[5], [6, 6]] = none := by
  have h := pull_loop_empty_terminates [[5], [6, 6]] [[9]] (by decide)
  simpa using h

/-- Claim C3 counterexample: in `BadgeFileSystemApi.readFile`, after a
successful open, a chunk transaction that throws (here: a timeout) makes
the whole operation throw without ever issuing the close-file transaction
— there is no try/finally around the loop. -/
theorem bulk_chunk_error_skips_close_cex :
    readFileTrace [Except.ok [1], Except.error TxError.timeoutError] =
      [BulkCmd.fsOpenRead, BulkCmd.chunkTx] ∧
    BulkCmd.closeTx ∉ readFileTrace [Except.ok [1], Except.error TxError.timeoutError] := by
  decide

/-- A chunk loop over successful non-empty chunks ending in an empty chunk
issues one pull per chunk and then the close. -/
theorem rfLoopTrace_run (pre : List (List Nat)) (h : ∀ c ∈ pre, c ≠ [])
    (rest : List (Except TxError (List Nat))) :
    rfLoopTrace (pre.map Except.ok ++ Except.ok [] :: rest) =
      List.replicate pre.length BulkCmd.chunkTx ++ [BulkCmd.chunkTx, BulkCmd.closeTx] := by
  induction pre with
  | nil =>
    rw [List.map_nil, List.nil_append, rfLoopTrace]
    simp
  | cons c cs ih =>
    have hc : c ≠ [] := h c (by simp)
    have hclen : ¬ c.length < 1 := by
      have := List.length_pos.mpr hc
      omega
    rw [List.map_cons, List.cons_append, rfLoopTrace, if_neg hclen,
      ih fun x hx => h x (by simp [hx])]
    simp [List.replicate_succ]

/-- A chunk loop over successful non-empty chunks that then hits a failing
chunk transaction issues one pull per chunk plus the failing pull, and no
close. -/
theorem rfLoopTrace_err (pre : List (List Nat)) (h : ∀ c ∈ pre, c ≠ [])
    (e : TxError) (rest : List (Except TxError (List Nat))) :
    rfLoopTrace (pre.map Except.ok ++ Except.error e :: rest) =
      List.replicate pre.length BulkCmd.chunkTx ++ [BulkCmd.chunkTx] := by
  induction pre with
  | nil =>
    rw [List.map_nil, List.nil_append, rfLoopTrace]
    simp
  | cons c cs ih =>
    have hc : c ≠ [] := h c (by simp)
    have hclen : ¬ c.length < 1 := by
      have := List.length_pos.mpr hc
      omega
    rw [List.map_cons, List.cons_append, rfLoopTrace, if_neg hclen,
      ih fun x hx => h x (by simp [hx])]
    simp [List.replicate_succ]

/-- Claim C3 amended theorem: in the cited bulk operations the close-file
transaction is issued only on the path where the open/allocate succeeded
and the chunk loop ran to normal completion; a throwing open/allocate
exits without a close, and a throwing chunk transaction also exits without
a close (only the successful-completion path closes). -/
theorem bulk_close_on_success_only (pre : List (List Nat)) (h : ∀ c ∈ pre, c ≠ [])
    (e : TxError) (rest r1 : List (Except TxError (List Nat))) (d : List Nat)
    (hd : d ≠ []) :
    readFileTrace (Except.ok [1] :: (pre.map Except.ok ++ Except.ok [] :: rest)) =
      BulkCmd.fsOpenRead :: (List.replicate pre.length BulkCmd.chunkTx ++
        [BulkCmd.chunkTx, BulkCmd.closeTx]) ∧
    readFileTrace (Except.error e :: r1) = [BulkCmd.fsOpenRead] ∧
    BulkCmd.closeTx ∉
      readFileTrace (Except.ok [1] :: (pre.map Except.ok ++ Except.error e :: r1)) ∧
    appWriteTrace (Except.error e :: r1) d = [BulkCmd.appAlloc] ∧
    appWriteTrace (Except.ok [1] :: Except.error e :: r1) d =
      [BulkCmd.appAlloc, BulkCmd.chunkTx] := by
  have hopen : (([1] : List Nat).getD 0 0 = 1) := rfl
  refine ⟨?_, rfl, ?_, rfl, ?_⟩
  · rw [readFileTrace]
    rw [if_pos hopen, rfLoopTrace_run pre h rest]
  · rw [readFileTrace]
    rw [if_pos hopen, rfLoopTrace_err pre h e r1]
    simp [List.mem_append, List.mem_replicate]
  · rw [appWriteTrace, if_pos hopen, awLoopTrace]
    have hdlen : ¬ d.length = 0 := by
      intro hz
      exact hd (List.eq_nil_of_length_eq_zero hz)
    have htake : ¬ (d.take 1024).length < 1 := by
      rw [List.length_take]
      have := List.length_pos.mpr hd
      omega
    rw [if_neg hdlen, if_neg htake]

/-- Witness for the amended C3 theorem with one successful 1-byte chunk, a
timeout error, and one byte of app data. -/
theorem bulk_close_on_success_only_witness :
    readFileTrace (Except.ok [1] :: ([[2]].map Except.ok ++ Except.ok [] :: [])) =
      BulkCmd.fsOpenRead :: (List.replicate [[2]].length BulkCmd.chunkTx ++
        [BulkCmd.chunkTx, BulkCmd.closeTx]) ∧
    readFileTrace (Except.error TxError.timeoutError :: []) = [BulkCmd.fsOpenRead] ∧
    BulkCmd.closeTx ∉
      readFileTrace (Except.ok [1] ::
        ([[2]].map Except.ok ++ Except.error TxError.timeoutError :: [])) ∧
    appWriteTrace (Except.error TxError.timeoutError :: []) [3] = [BulkCmd.appAlloc] ∧
    appWriteTrace (Except.ok [1] :: Except.error TxError.timeoutError :: []) [3] =
      [BulkCmd.appAlloc, BulkCmd.chunkTx] :=
  bulk_close_on_success_only [[2]] (by decide) TxError.timeoutError [] [] [3] (by decide)

/-- Claim C6 theorem: for a transaction started with a positive timeout
and a fresh transaction id, if the timeout timer fires before any matching
response is dispatched, the caller's await rejects with the timeout error,
the registry entry for that id is removed, and `inSync` is forced to
`false`. -/
theorem transaction_timeout_behavior (st : Session) (command timeout : Nat)
    (hpos : 0 < timeout) (hfresh : st.nextTransactionID ∉ st.registry) :
    (transactionRun st command timeout .timerFires).2 =
      some (Except.error TxError.timeoutError) ∧
    st.nextTransactionID ∉ (transactionRun st command timeout .timerFires).1.registry ∧
    (transactionRun st command timeout .timerFires).1.inSync = false := by
  unfold transactionRun
  simp only [if_neg hfresh, if_pos hpos]
  refine ⟨trivial, ?_, trivial⟩
  show st.nextTransactionID ∉ (st.registry ++ [st.nextTransactionID]).erase st.nextTransactionID
  rw [List.erase_append_right _ hfresh, List.erase_cons_head]
  simpa using hfresh

/-- Witness for C6 on the empty in-sync session, command 1, timeout 100. -/
theorem transaction_timeout_behavior_witness :
    (transactionRun ⟨[], 0, true⟩ 1 100 .timerFires).2 =
      some (Except.error TxError.timeoutError) ∧
    (0 : Nat) ∉ (transactionRun ⟨[], 0, true⟩ 1 100 .timerFires).1.registry ∧
    (transactionRun ⟨[], 0, true⟩ 1 100 .timerFires).1.inSync = false := by
  have h := transaction_timeout_behavior ⟨[], 0, true⟩ 1 100 (by decide) (by decide)
  simpa using h

/-- Claim C10 theorem: releasing any token other than the currently held
one is a complete no-op on the queue — holder, wait list, token counter
and expiry timer are all unchanged, and no waiter is resolved. -/
theorem release_foreign_token_noop (qs : QueueState) (t : Nat)
    (h : qs.current ≠ some t) : releaseQ qs t = (qs, none) := by
  unfold releaseQ
  rw [if_neg h]

/-- Witness for C10: releasing stale token 3 while token 5 is held with a
waiter queued changes nothing. -/
theorem release_foreign_token_noop_witness :
    releaseQ ⟨7, some 5, [(1, none)], some 5000⟩ 3 =
      (⟨7, some 5, [(1, none)], some 5000⟩, none) :=
  release_foreign_token_noop ⟨7, some 5, [(1, none)], some 5000⟩ 3 (by decide)

/-- Claim C7 theorem: a received frame with a positive declared payload
length whose recomputed CRC-32 differs from the header CRC field rejects
the matching pending transaction with the integrity (CRC) error — for
every command it can never settle as success — removing only that entry;
the registry stays usable: any valid (CRC-passing) response for another
still-pending transaction is then resolved and its caller receives the
payload as success. -/
theorem crc_mismatch_supersedes (registry : List Nat) (pkt pkt2 : List Nat)
    (command2 : Nat)
    (h1 : 0 < (parseFrame pkt).payloadLen)
    (h2 : crc32 (parseFrame pkt).payload ≠ (parseFrame pkt).payloadCRC)
    (h3 : (parseFrame pkt).id ∈ registry)
    (h4 : (parseFrame pkt2).id ∈ (handlePacket registry pkt).1)
    (h5 : crcPass (parseFrame pkt2))
    (h6 : (parseFrame pkt2).ftype = command2) :
    (handlePacket registry pkt).2 =
      DispatchOutcome.rejectedCRC (parseFrame pkt).id (parseFrame pkt) ∧
    (∀ cmd, callerSettle (handlePacket registry pkt).2 cmd =
      some (Except.error TxError.crcError)) ∧
    (handlePacket (handlePacket registry pkt).1 pkt2).2 =
      DispatchOutcome.resolvedOk (parseFrame pkt2).id (parseFrame pkt2) ∧
    callerSettle (handlePacket (handlePacket registry pkt).1 pkt2).2 command2 =
      some (Except.ok (parseFrame pkt2).payload) := by
  have hfirst : handlePacket registry pkt =
      (registry.erase (parseFrame pkt).id,
        DispatchOutcome.rejectedCRC (parseFrame pkt).id (parseFrame pkt)) := by
    unfold handlePacket
    rw [if_pos ⟨h1, h2⟩, if_pos h3]
  have hcond2 : ¬ (0 < (parseFrame pkt2).payloadLen ∧
      crc32 (parseFrame pkt2).payload ≠ (parseFrame pkt2).payloadCRC) := by
    rcases h5 with h5a | h5b
    · intro hx
      omega
    · intro hx
      exact hx.2 h5b
  have hsecond : handlePacket (handlePacket registry pkt).1 pkt2 =
      ((handlePacket registry pkt).1.erase (parseFrame pkt2).id,
        DispatchOutcome.resolvedOk (parseFrame pkt2).id (parseFrame pkt2)) := by
    set R := (handlePacket registry pkt).1 with hR
    unfold handlePacket
    rw [if_neg hcond2, if_pos h4]
  refine ⟨by rw [hfirst], fun cmd => by rw [hfirst]; rfl, by rw [hsecond], ?_⟩
  rw [hsecond]
  show some (if (parseFrame pkt2).ftype = command2 then Except.ok (parseFrame pkt2).payload
    else Except.error (TxError.deviceError (parseFrame pkt2).ftype)) =
    some (Except.ok (parseFrame pkt2).payload)
  rw [if_pos h6]

/-- A concrete 21-byte packet for transaction id 3, type code 9, declared
payload length 1, stored CRC 0, payload byte 9 — a CRC mismatch, since the
CRC-32 of `[9]` is not 0. -/
def badpkt : List Nat :=
  [13, 240, 237, 254, 3, 0, 0, 0, 9, 0, 0, 0, 1, 0, 0, 0, 0, 0, 0, 0, 9]

/-- Witness for C7: the tampered packet for pending id 3 is rejected with
the CRC error, and a well-formed response for the other pending id 4 then
resolves successfully. -/
theorem crc_mismatch_supersedes_witness :
    (handlePacket [3, 4] badpkt).2 =
      DispatchOutcome.rejectedCRC (parseFrame badpkt).id (parseFrame badpkt) ∧
    (∀ cmd, callerSettle (handlePacket [3, 4] badpkt).2 cmd =
      some (Except.error TxError.crcError)) ∧
    (handlePacket (handlePacket [3, 4] badpkt).1 (encodePacket 4 9 [5])).2 =
      DispatchOutcome.resolvedOk (parseFrame (encodePacket 4 9 [5])).id
        (parseFrame (encodePacket 4 9 [5])) ∧
    callerSettle (handlePacket (handlePacket [3, 4] badpkt).1 (encodePacket 4 9 [5])).2 9 =
      some (Except.ok (parseFrame (encodePacket 4 9 [5])).payload) :=
  crc_mismatch_supersedes [3, 4] badpkt (encodePacket 4 9 [5]) 9
    (by decide) (by decide) (by decide) (by decide) (by decide) (by decide)

/-- Claim C8 theorem: from an idle queue, the first tokenless `waitTurn`
is granted immediately; a second tokenless `waitTurn` is not admitted (it
is queued at the end of the FIFO list) while the first caller still holds
its token, and only releasing that token grants the second caller the next
token; in general, releasing the held token always grants the head of the
FIFO wait list. -/
theorem queue_fifo_serialization (qs : QueueState) (l1 l2 : Nat) (to1 to2 : Option Nat)
    (hidle : qs.current = none) (hempty : qs.waiting = []) :
    (waitTurn qs l1 none to1).2 = WaitResult.granted qs.nextToken ∧
    (waitTurn (waitTurn qs l1 none to1).1 l2 none to2).2 = WaitResult.queuedUp ∧
    (waitTurn (waitTurn qs l1 none to1).1 l2 none to2).1.current = some qs.nextToken ∧
    (waitTurn (waitTurn qs l1 none to1).1 l2 none to2).1.waiting = [(l2, to2)] ∧
    (releaseQ (waitTurn (waitTurn qs l1 none to1).1 l2 none to2).1 qs.nextToken).2 =
      some (l2, qs.nextToken + 1) ∧
    (releaseQ (waitTurn (waitTurn qs l1 none to1).1 l2 none to2).1 qs.nextToken).1.current =
      some (qs.nextToken + 1) ∧
    (∀ (qs2 : QueueState) (c : Nat) (w : Nat × Option Nat) (rest : List (Nat × Option Nat)),
      qs2.current = some c → qs2.waiting = w :: rest →
      (releaseQ qs2 c).2 = some (w.1, qs2.nextToken) ∧ (releaseQ qs2 c).1.waiting = rest) := by
  have h1 : waitTurn qs l1 none to1 =
      ({ nextToken := qs.nextToken + 1, current := some qs.nextToken,
         waiting := qs.waiting, timer := some (to1.getD qDefaultTimeout) },
        WaitResult.granted qs.nextToken) := by
    unfold waitTurn
    rw [hidle]
  have hfifo : ∀ (qs2 : QueueState) (c : Nat) (w : Nat × Option Nat)
      (rest : List (Nat × Option Nat)),
      qs2.current = some c → qs2.waiting = w :: rest →
      (releaseQ qs2 c).2 = some (w.1, qs2.nextToken) ∧ (releaseQ qs2 c).1.waiting = rest := by
    intro qs2 c w rest hc hw
    unfold releaseQ
    rw [if_pos hc, hw]
    exact ⟨rfl, rfl⟩
  rw [h1]
  have h2 : waitTurn
      ({ nextToken := qs.nextToken + 1, current := some qs.nextToken,
         waiting := qs.waiting, timer := some (to1.getD qDefaultTimeout) } : QueueState)
      l2 none to2 =
      ({ nextToken := qs.nextToken + 1, current := some qs.nextToken,
         waiting := qs.waiting ++ [(l2, to2)], timer := some (to1.getD qDefaultTimeout) },
        WaitResult.queuedUp) := by
    unfold waitTurn
    simp
  rw [h2, hempty]
  have h3 : releaseQ
      ({ nextToken := qs.nextToken + 1, current := some qs.nextToken,
         waiting := [] ++ [(l2, to2)], timer := some (to1.getD qDefaultTimeout) } : QueueState)
      qs.nextToken =
      ({ nextToken := qs.nextToken + 1 + 1, current := some (qs.nextToken + 1),
         waiting := [], timer := some (to2.getD qDefaultTimeout) },
        some (l2, qs.nextToken + 1)) := by
    unfold releaseQ
    simp
  rw [h3]
  exact ⟨rfl, rfl, rfl, rfl, rfl, rfl, hfifo⟩

/-- Witness for C8 on the fresh empty queue with caller labels 10 and 11. -/
theorem queue_fifo_serialization_witness :
    (waitTurn ⟨0, none, [], none⟩ 10 none none).2 = WaitResult.granted 0 ∧
    (waitTurn (waitTurn ⟨0, none, [], none⟩ 10 none none).1 11 none none).2 =
      WaitResult.queuedUp ∧
    (waitTurn (waitTurn ⟨0, none, [], none⟩ 10 none none).1 11 none none).1.current =
      some 0 ∧
    (waitTurn (waitTurn ⟨0, none, [], none⟩ 10 none none).1 11 none none).1.waiting =
      [(11, none)] ∧
    (releaseQ (waitTurn (waitTurn ⟨0, none, [], none⟩ 10 none none).1 11 none none).1 0).2 =
      some (11, 0 + 1) ∧
    (releaseQ (waitTurn (waitTurn ⟨0, none, [], none⟩ 10 none none).1 11 none none).1
      0).1.current = some (0 + 1) ∧
    (∀ (qs2 : QueueState) (c : Nat) (w : Nat × Option Nat) (rest : List (Nat × Option Nat)),
      qs2.current = some c → qs2.waiting = w :: rest →
      (releaseQ qs2 c).2 = some (w.1, qs2.nextToken) ∧ (releaseQ qs2 c).1.waiting = rest) :=
  queue_fifo_serialization ⟨0, none, [], none⟩ 10 11 none none rfl rfl

set_option maxRecDepth 8000 in
/-- Claim C9 counterexample: with a device that never replies, `connect()`
aborts with the fatal sync error after its 100-attempt bound, but
`syncIfNeeded()` is still looping after 1000 sync attempts — well past any
bound — having produced no fatal error: its retrying is unbounded,
contrary to the claim that every drive of the Sync Protocol is bounded. -/
theorem sync_if_needed_unbounded_cex :
    syncIfNeededGo (fun _ => none) 1000 0 = SyncLoopState.stillLooping ∧
    connectSyncGo (fun _ => none) 100 0 = Except.error ConnectError.syncFailed :=
  ⟨rfl, rfl⟩

/-- On an oracle that never succeeds, the connect sync loop always fails
with the fatal sync error. -/
theorem connectSyncGo_never (oracle : Nat → Option Nat) (h : ∀ k, oracle k = none) :
    ∀ fuel n, connectSyncGo oracle fuel n = Except.error ConnectError.syncFailed := by
  intro fuel
  induction fuel with
  | zero =>
    intro n
    rw [connectSyncGo]
    by_cases hn : 100 < n + 1
    · rw [if_pos hn]
    · rw [if_neg hn]
  | succ f ih =>
    intro n
    rw [connectSyncGo]
    by_cases hn : 100 < n + 1
    · rw [if_pos hn]
    · rw [if_neg hn, h (n + 1)]
      exact ih (n + 1)

/-- Claim C9 amended theorem: `connect()`'s retry loop is bounded — with a
device that never replies it fails with the fatal sync error after 100
attempts, and with a first reply at attempt `a ≤ 100` carrying protocol
version at least 2 it succeeds with that version — but `syncIfNeeded()`
has no bound at all: with a device that never replies it is still looping
after any number of attempts and never fails fatally. -/
theorem sync_retry_bounds (oracleN oracleS : Nat → Option Nat) (a v : Nat)
    (hN : ∀ k, oracleN k = none)
    (ha1 : 1 ≤ a) (ha2 : a ≤ 100)
    (hfirst : ∀ k, 1 ≤ k → k < a → oracleS k = none)
    (hs : oracleS a = some v) (hv : 2 ≤ v) :
    connectModel oracleN = Except.error ConnectError.syncFailed ∧
    connectModel oracleS = Except.ok v ∧
    (∀ fuel k, syncIfNeededGo oracleN fuel k = SyncLoopState.stillLooping) := by
  refine ⟨?_, ?_, ?_⟩
  · unfold connectModel
    rw [connectSyncGo_never oracleN hN 100 0]
  · have hrun : ∀ fuel n, n + 1 ≤ a → a ≤ n + fuel →
        connectSyncGo oracleS fuel n = Except.ok v := by
      intro fuel
      induction fuel with
      | zero => intro n hn1 hn2; omega
      | succ f ih =>
        intro n hn1 hn2
        rw [connectSyncGo, if_neg (by omega)]
        by_cases heq : n + 1 = a
        · rw [heq, hs]
        · rw [hfirst (n + 1) (by omega) (by omega)]
          exact ih (n + 1) (by omega) (by omega)
    unfold connectModel
    rw [hrun 100 0 (by omega) (by omega)]
    show (if v < 2 then Except.error ConnectError.versionNotSupported else Except.ok v) =
      Except.ok v
    rw [if_neg (by omega)]
  · intro fuel
    induction fuel with
    | zero => intro k; rfl
    | succ f ih =>
      intro k
      rw [syncIfNeededGo, hN k]
      exact ih (k + 1)

/-- Witness for the amended C9 theorem: a never-replying device, and a
device replying with protocol version 2 on the first attempt. -/
theorem sync_retry_bounds_witness :
    connectModel (fun _ => none) = Except.error ConnectError.syncFailed ∧
    connectModel (fun k => if k = 1 then some 2 else none) = Except.ok 2 ∧
    (∀ fuel k, syncIfNeededGo (fun _ => none) fuel k = SyncLoopState.stillLooping) :=
  sync_retry_bounds (fun _ => none) (fun k => if k = 1 then some 2 else none) 1 2
    (fun _ => rfl) (by decide) (by decide)
    (fun k h1 h2 => absurd h2 (Nat.not_lt.mpr h1)) rfl (by decide)
